import Mathlib

/-!
# Verification of the statistical-arbitrage simulator core

Shallow embedding, in Lean 4, of the core of the pairs-trading backtester
(files `Utilities.cpp`, `AssetPair.cpp`, `Backtester.cpp`).

Modelling conventions:

* IEEE doubles are modelled as exact rationals (`ℚ`); a double that may be
  NaN is modelled as `Option ℚ`, with `none` playing the role of NaN.
  Floating-point rounding, overflow and underflow are outside the model.
* `std::sqrt` is replaced by `ratSqrt`, a computable stand-in that is exact
  on perfect rational squares and, crucially, preserves strict positivity
  (`0 < ratSqrt q ↔ 0 < q` for the nonnegative arguments it receives).
  Every property proved below depends on `sqrt` only through positivity or
  through perfect-square values, so the stand-in is faithful there.
* `size_t` loop arithmetic is modelled over `ℕ`; the one place where the
  C++ loop bound underflows (a rolling window of 0) is modelled by the
  explicit `window = 0` guard producing the same all-NaN result.
* C++ in-place mutation is modelled by explicit state passing.
-/

namespace StatArb

/-- Floor integer square root, written with structural recursion only so the
kernel can evaluate it: counts the `k ≤ n` with `k * k ≤ n`.  For `n ≥ 1`
the count is `⌊√n⌋ + 1 ≥ 2`; the `max 1` clause is a no-op there and makes
strict positivity definitional. -/
def natSqrt (n : ℕ) : ℕ :=
  if n = 0 then 0 else max 1 ((List.range (n + 1)).countP (fun k => k * k ≤ n) - 1)

/-- Computable, sign-faithful stand-in for `std::sqrt` on rationals:
square root of numerator over square root of denominator.  Exact whenever
both are perfect squares; nonnegative everywhere; strictly positive exactly
on strictly positive input. -/
def ratSqrt (q : ℚ) : ℚ := (natSqrt q.num.toNat : ℚ) / (natSqrt q.den : ℚ)

namespace Utilities

/-- `Utilities::mean`: arithmetic mean; NaN (`none`) on empty input. -/
def mean (data : List ℚ) : Option ℚ :=
  if data.isEmpty then none else some (data.sum / (data.length : ℚ))

/-- `Utilities::standardDeviation`: sample standard deviation with `n - 1`
divisor; NaN (`none`) on fewer than 2 points. -/
def standardDeviation (data : List ℚ) : Option ℚ :=
  if data.length < 2 then none
  else
    let avg := (mean data).getD 0
    let ssd := (data.map (fun v => (v - avg) * (v - avg))).sum
    some (ratSqrt (ssd / ((data.length - 1 : ℕ) : ℚ)))

/-- The trailing window of `window` observations ending at index `i`:
`data[i - window + 1 .. i]`, exactly the slice the C++ rolling loops read. -/
def trailingWindow (data : List ℚ) (window i : ℕ) : List ℚ :=
  (data.drop (i + 1 - window)).take window

/-- `Utilities::rollingMean`.  The `window = 0` branch models the `size_t`
underflow of the C++ loop start `window - 1`, which leaves every entry NaN. -/
def rollingMean (data : List ℚ) (window : ℕ) : List (Option ℚ) :=
  if data.length < window ∨ window = 0 then List.replicate data.length none
  else
    (List.range data.length).map (fun i =>
      if window - 1 ≤ i then some ((trailingWindow data window i).sum / (window : ℚ))
      else none)

/-- `Utilities::rollingStdDev`; same loop structure as `rollingMean`. -/
def rollingStdDev (data : List ℚ) (window : ℕ) : List (Option ℚ) :=
  if data.length < window ∨ window = 0 then List.replicate data.length none
  else
    (List.range data.length).map (fun i =>
      if window - 1 ≤ i then standardDeviation (trailingWindow data window i)
      else none)

/-- `Utilities::rollingZScore`: `(value - rollingMean) / rollingStdDev`,
computed only where the rolling standard deviation is strictly positive
(`stdDevs[i] > 0` in the source; a NaN standard deviation fails that test). -/
def rollingZScore (data : List ℚ) (window : ℕ) : List (Option ℚ) :=
  if data.length < window then List.replicate data.length none
  else
    let means := rollingMean data window
    let stdDevs := rollingStdDev data window
    (List.range data.length).map (fun i =>
      if window - 1 ≤ i ∧ window ≠ 0 then
        (stdDevs.getD i none).bind (fun s =>
          if 0 < s then some ((data.getD i 0 - (means.getD i none).getD 0) / s)
          else none)
      else none)

/-- `Utilities::RegressionResult`. -/
structure RegressionResult where
  alpha : ℚ
  beta : ℚ
  rsquared : ℚ
  residuals : List ℚ
deriving DecidableEq, Repr

/-- `Utilities::linearRegression`: ordinary least squares via the normal
equations, with the degenerate `(0,0,0,[])` fallbacks of the source. -/
def linearRegression (x y : List ℚ) : RegressionResult :=
  if x.length ≠ y.length ∨ x.isEmpty then ⟨0, 0, 0, []⟩
  else
    let n : ℚ := x.length
    let sum_x := x.sum
    let sum_y := y.sum
    let sum_xy := ((x.zip y).map (fun p => p.1 * p.2)).sum
    let sum_xx := (x.map (fun v => v * v)).sum
    let denominator := n * sum_xx - sum_x * sum_x
    if denominator = 0 then ⟨0, 0, 0, []⟩
    else
      let beta := (n * sum_xy - sum_x * sum_y) / denominator
      let alpha := (sum_y - beta * sum_x) / n
      let residuals := ((x.zip y).map (fun p => p.2 - (alpha + beta * p.1)))
      let ss_total := (y.map (fun v => (v - sum_y / n) * (v - sum_y / n))).sum
      let ss_residual := (residuals.map (fun r => r * r)).sum
      let rsquared := if 0 < ss_total then 1 - ss_residual / ss_total else 0
      ⟨alpha, beta, rsquared, residuals⟩

/-- `Utilities::AdfResult`. -/
structure AdfResult where
  testStatistic : ℚ
  pValue : ℚ
  isStationary : Bool
deriving DecidableEq, Repr

/-- `Utilities::adfTest`: simplified single-lag Dickey-Fuller test.  Below
20 observations it returns the fixed non-stationary result `(0, 1, false)`.
Otherwise it regresses the first difference on the lagged level, forms
`t = beta / se`, hard-codes the p-value `0.05`, and compares `t` against
the fixed critical value `-2.86`. -/
def adfTest (timeSeries : List ℚ) (_maxLags : ℤ) : AdfResult :=
  if timeSeries.length < 20 then ⟨0, 1, false⟩
  else
    let diff := ((timeSeries.zip (timeSeries.drop 1)).map (fun p => p.2 - p.1))
    let lagged := timeSeries.take (timeSeries.length - 1)
    let regression := linearRegression lagged diff
    let beta := regression.beta
    let se0 := (regression.residuals.map (fun r => r * r)).sum
    let se1 := ratSqrt (se0 / ((regression.residuals.length - 2 : ℕ) : ℚ))
    let se := se1 / ratSqrt ((lagged.map (fun v => v * v)).sum)
    let tStat := beta / se
    ⟨tStat, 1 / 20, decide (tStat < -(143 / 50))⟩

end Utilities

/-- `AssetPair`: two symbols, their (truncated-to-equal-length) price series,
the derived spread sequence, the fitted beta (1 until tested) and the
cointegration flag. -/
structure AssetPair where
  symbolA : String
  symbolB : String
  pricesA : List ℚ
  pricesB : List ℚ
  spreads : List ℚ
  beta : ℚ
  isCointegrated : Bool
deriving DecidableEq, Repr

/-- `AssetPair::calculateSpreads`: `spread[i] = priceA[i] - beta * priceB[i]`
(the series have equal length after construction). -/
def calculateSpreads (pricesA pricesB : List ℚ) (beta : ℚ) : List ℚ :=
  (pricesA.zip pricesB).map (fun p => p.1 - beta * p.2)

/-- The `AssetPair` constructor: truncates both series to the shorter
length, then computes spreads with the default `beta = 1`. -/
def AssetPair.make (symbolA symbolB : String) (pricesA pricesB : List ℚ) : AssetPair :=
  let m := min pricesA.length pricesB.length
  let pA := pricesA.take m
  let pB := pricesB.take m
  ⟨symbolA, symbolB, pA, pB, calculateSpreads pA pB 1, 1, false⟩

/-- `AssetPair::testCointegration`: regress `priceA` on `priceB`, store the
regression beta, recompute spreads with it, run the single-lag stationarity
test on the spread and store/return its verdict.  The `significanceLevel`
parameter is accepted but unused, as in the source.  Returns the updated
pair together with the verdict. -/
def testCointegration (p : AssetPair) (_significanceLevel : ℚ) : AssetPair × Bool :=
  let regression := Utilities.linearRegression p.pricesB p.pricesA
  let beta := regression.beta
  let spreads := calculateSpreads p.pricesA p.pricesB beta
  let adfResult := Utilities.adfTest spreads 1
  (⟨p.symbolA, p.symbolB, p.pricesA, p.pricesB, spreads, beta, adfResult.isStationary⟩,
   adfResult.isStationary)

/-- `AssetPair::getZScores`: a window at least as long as the spread series
is shrunk to half the series length, with a floor of 2, before the roll. -/
def getZScores (p : AssetPair) (window : ℕ) : List (Option ℚ) :=
  let w :=
    if p.spreads.length ≤ window then
      if p.spreads.length / 2 < 2 then 2 else p.spreads.length / 2
    else window
  Utilities.rollingZScore p.spreads w

/-- One day of the signal state machine in `AssetPair::generateSignals`.
`currentPosition` is the held direction (`0` flat, `1` long-spread,
`-1` short-spread, exactly the `int` coding of the source); the result is
`(emitted signal, next held direction)`.  A NaN z-score (`none`) emits `0`
and `continue`s, leaving the held direction untouched. -/
def signalStep (entryThreshold exitThreshold : ℚ) (currentPosition : ℤ) :
    Option ℚ → ℤ × ℤ
  | none => (0, currentPosition)
  | some z =>
    if currentPosition = 0 then
      if z > entryThreshold then (-1, -1)
      else if z < -entryThreshold then (1, 1)
      else (0, 0)
    else if currentPosition = 1 then
      if z ≥ -exitThreshold then (0, 0) else (1, 1)
    else if currentPosition = -1 then
      if z ≤ exitThreshold then (0, 0) else (-1, -1)
    else (0, currentPosition)

/-- The day-by-day loop of `AssetPair::generateSignals`, threading the held
direction through `signalStep`. -/
def signalLoop (entryThreshold exitThreshold : ℚ) :
    ℤ → List (Option ℚ) → List ℤ
  | _, [] => []
  | pos, z :: rest =>
    let r := signalStep entryThreshold exitThreshold pos z
    r.1 :: signalLoop entryThreshold exitThreshold r.2 rest

/-- `AssetPair::generateSignals`: run the three-state machine over the
z-scores of the spread, starting flat. -/
def generateSignals (p : AssetPair) (entryThreshold exitThreshold : ℚ)
    (lookbackWindow : ℕ) : List ℤ :=
  signalLoop entryThreshold exitThreshold 0 (getZScores p lookbackWindow)

/-- The held direction after the machine has consumed a z-score list. -/
def posAfter (entryThreshold exitThreshold : ℚ) (pos : ℤ)
    (zs : List (Option ℚ)) : ℤ :=
  zs.foldl (fun p z => (signalStep entryThreshold exitThreshold p z).2) pos

/-- `MarketData`: the external price provider.  `numDays` is
`getDataSize()` (the number of loaded date rows) and `prices` the
symbol-keyed series table. -/
structure MarketData where
  numDays : ℕ
  prices : List (String × List ℚ)
deriving DecidableEq, Repr

/-- `MarketData::getPriceSeries`: the series for a symbol, or `none` when
the symbol is unknown. -/
def getPriceSeries (md : MarketData) (symbol : String) : Option (List ℚ) :=
  (md.prices.find? (fun p => p.1 = symbol)).map Prod.snd

/-- `Backtester::Position`: both signed leg quantities, both entry prices,
entry day and direction. -/
structure Position where
  symbolA : String
  symbolB : String
  quantityA : ℚ
  quantityB : ℚ
  entryPriceA : ℚ
  entryPriceB : ℚ
  entryDay : ℤ
  direction : ℤ
deriving DecidableEq, Repr

/-- The default-constructed `Position` (the value assigned on close). -/
def Position.initial : Position := ⟨"", "", 0, 0, 0, 0, -1, 0⟩

/-- The mutable simulation state of `Backtester` touched by `runBacktest`:
cash, the `positions_` vector, the per-day value series, the trade log and
the win/loss/holding-period accumulators of `metrics_`. -/
structure BtState where
  cash : ℚ
  positions : List Position
  portfolioValues : List ℚ
  tradeHistory : List (ℤ × ℚ)
  winCount : ℤ
  lossCount : ℤ
  holdingSum : ℚ
deriving DecidableEq, Repr

/-- `Backtester::calculatePortfolioValue`: out-of-range days fall back to
the initial capital; otherwise cash plus `quantity * price` over both legs
of every entry of the `positions_` vector whose symbols resolve and whose
series are long enough. -/
def calculatePortfolioValue (md : MarketData) (initialCapital cash : ℚ)
    (positions : List Position) (day : ℤ) : ℚ :=
  if day < 0 ∨ (md.numDays : ℤ) ≤ day then initialCapital
  else
    cash + (positions.map (fun pos =>
      match getPriceSeries md pos.symbolA, getPriceSeries md pos.symbolB with
      | some pricesA, some pricesB =>
        if day < (pricesA.length : ℤ) ∧ day < (pricesB.length : ℤ) then
          pos.quantityA * pricesA.getD day.toNat 0 +
            pos.quantityB * pricesB.getD day.toNat 0
        else 0
      | _, _ => 0)).sum

/-- The per-pair loop state of `runBacktest`: the shared backtester state
plus the pair-local `currentPosition` and `position` variables. -/
structure PairLoopState where
  bt : BtState
  currentPosition : ℤ
  position : Position
deriving DecidableEq, Repr

/-- The close-position block of `runBacktest` (lines 75-103): realize both
legs at the execution-day prices into cash, log `(executionDay, pnl)`,
bump the win/loss and holding-period accumulators, and reset the local
`position` and `currentPosition`.  Note that the `positions_` vector is
left untouched, exactly as in the source. -/
def closePosition (pair : AssetPair) (executionDay : ℕ)
    (s : PairLoopState) : PairLoopState :=
  let priceA := pair.pricesA.getD executionDay 0
  let priceB := pair.pricesB.getD executionDay 0
  let entryValueA := s.position.quantityA * s.position.entryPriceA
  let entryValueB := s.position.quantityB * s.position.entryPriceB
  let exitValueA := s.position.quantityA * priceA
  let exitValueB := s.position.quantityB * priceB
  let pnl := (exitValueA - entryValueA) + (exitValueB - entryValueB)
  { bt :=
      { s.bt with
        tradeHistory := s.bt.tradeHistory ++ [((executionDay : ℤ), pnl)]
        cash := s.bt.cash + exitValueA + exitValueB
        winCount := if 0 < pnl then s.bt.winCount + 1 else s.bt.winCount
        lossCount := if 0 < pnl then s.bt.lossCount else s.bt.lossCount + 1
        holdingSum := s.bt.holdingSum + ((executionDay : ℚ) - (s.position.entryDay : ℚ)) }
    currentPosition := 0
    position := Position.initial }

/-- The open-position block of `runBacktest` (lines 105-142): size the new
position at 10% of the previous-day portfolio value, split evenly in
dollars between the legs with direction-dependent signs, pay for it from
cash and append it to `positions_`. -/
def openPosition (md : MarketData) (initialCapital : ℚ) (pair : AssetPair)
    (signal : ℤ) (executionDay : ℕ) (s : PairLoopState) : PairLoopState :=
  let priceA := pair.pricesA.getD executionDay 0
  let priceB := pair.pricesB.getD executionDay 0
  let positionSize :=
    calculatePortfolioValue md initialCapital s.bt.cash s.bt.positions
      ((executionDay : ℤ) - 1) * (1 / 10)
  let quantityA :=
    if 0 < signal then positionSize / (2 * priceA) else -positionSize / (2 * priceA)
  let quantityB :=
    if 0 < signal then -positionSize / (2 * priceB) else positionSize / (2 * priceB)
  let newPos : Position :=
    ⟨pair.symbolA, pair.symbolB, quantityA, quantityB, priceA, priceB,
      (executionDay : ℤ), signal⟩
  { bt :=
      { s.bt with
        cash := s.bt.cash - (quantityA * priceA + quantityB * priceB)
        positions := s.bt.positions ++ [newPos] }
    currentPosition := signal
    position := newPos }

/-- The effective execution day: `day + 1` under delayed (T+1) execution
when a next day exists, else `day` itself. -/
def execDay (delayedExecution : Bool) (numDays day : ℕ) : ℕ :=
  if delayedExecution ∧ day + 1 < numDays then day + 1 else day

/-- One iteration of the day loop of `runBacktest` for one pair: trade on a
signal change (close, then possibly open), then record the mark-to-market
value at the execution-day index of the shared value series. -/
def dayStep (md : MarketData) (initialCapital : ℚ) (pair : AssetPair)
    (signals : List ℤ) (delayedExecution : Bool) (numDays : ℕ)
    (s : PairLoopState) (day : ℕ) : PairLoopState :=
  let signal := if day < signals.length then signals.getD day 0 else 0
  let executionDay := execDay delayedExecution numDays day
  let s2 :=
    if signal = s.currentPosition then s
    else
      let sClosed :=
        if s.currentPosition ≠ 0 then closePosition pair executionDay s else s
      if signal ≠ 0 then
        openPosition md initialCapital pair signal executionDay sClosed
      else sClosed
  { s2 with
    bt :=
      { s2.bt with
        portfolioValues :=
          s2.bt.portfolioValues.set executionDay
            (calculatePortfolioValue md initialCapital s2.bt.cash s2.bt.positions
              (executionDay : ℤ)) } }

/-- The full day loop for one pair, walking days `lookbackWindow` to
`numDays - 1` with a freshly reset pair-local position. -/
def runPairLoop (md : MarketData) (initialCapital : ℚ) (pair : AssetPair)
    (signals : List ℤ) (delayedExecution : Bool) (numDays lookbackWindow : ℕ)
    (bt : BtState) : BtState :=
  ((List.range' lookbackWindow (numDays - lookbackWindow)).foldl
    (dayStep md initialCapital pair signals delayedExecution numDays)
    ⟨bt, 0, Position.initial⟩).bt

/-- `Backtester::runBacktest`: reset the mutable state (cash to the initial
capital, value series to `numDays` zeros), bail out on an empty dataset,
then run every pair's signal generation and day loop sequentially over the
shared state. -/
def runBacktest (md : MarketData) (pairs : List AssetPair)
    (initialCapital entryThreshold exitThreshold : ℚ) (lookbackWindow : ℕ)
    (delayedExecution : Bool) : BtState :=
  let numDays := md.numDays
  let init : BtState :=
    ⟨initialCapital, [], List.replicate numDays 0, [], 0, 0, 0⟩
  if numDays = 0 then init
  else
    pairs.foldl (fun bt pair =>
      runPairLoop md initialCapital pair
        (generateSignals pair entryThreshold exitThreshold lookbackWindow)
        delayedExecution numDays lookbackWindow bt) init

/-- `Backtester::PerformanceMetrics`, restricted to the fields the
verification touches.  `annualizedReturn` (a real power) and the Sharpe
ratio (which only scales by `sqrt 252`) are transcendental-valued and no
claim refers to them, so they are omitted from the model. -/
structure PerformanceMetrics where
  totalReturn : ℚ
  maxDrawdown : ℚ
  winCount : ℤ
  lossCount : ℤ
  avgHoldingPeriod : ℚ
  avgWin : ℚ
  avgLoss : ℚ
deriving DecidableEq, Repr

/-- The all-zero `PerformanceMetrics` of a fresh `Backtester`. -/
def PerformanceMetrics.initial : PerformanceMetrics := ⟨0, 0, 0, 0, 0, 0, 0⟩

/-- The peak-to-trough loop of `Backtester::calculateMetrics`
(lines 209-224): running maximum and maximal relative drawdown. -/
def maxDrawdownLoop : ℚ → ℚ → List ℚ → ℚ
  | _, maxDD, [] => maxDD
  | maxValue, maxDD, v :: rest =>
    if maxValue < v then maxDrawdownLoop v maxDD rest
    else
      let drawdown := (maxValue - v) / maxValue
      maxDrawdownLoop maxValue (if maxDD < drawdown then drawdown else maxDD) rest

/-- Maximum drawdown of a value series, as computed by `calculateMetrics`:
the loop starts with `maxValue = values[0]` and revisits every element. -/
def maxDrawdownOf (values : List ℚ) : ℚ :=
  match values with
  | [] => 0
  | v0 :: _ => maxDrawdownLoop v0 0 values

/-- `Backtester::calculateMetrics` (the modelled fields): total return,
maximum drawdown and the trade-log averages, derived from the value series,
the trade history and the in-loop accumulators.  Early-returns the metrics
unchanged on an empty value series. -/
def calculateMetrics (portfolioValues : List ℚ) (initialCapital : ℚ)
    (tradeHistory : List (ℤ × ℚ)) (m : PerformanceMetrics) : PerformanceMetrics :=
  if portfolioValues.isEmpty then m
  else
    let finalValue := portfolioValues.getLastD 0
    let totalReturn := finalValue / initialCapital - 1
    let maxDrawdown := maxDrawdownOf portfolioValues
    let totalTrades := m.winCount + m.lossCount
    let avgHoldingPeriod :=
      if 0 < totalTrades then m.avgHoldingPeriod / (totalTrades : ℚ)
      else m.avgHoldingPeriod
    let pnls := tradeHistory.map Prod.snd
    let totalWins := (pnls.filter (fun p => 0 < p)).sum
    let totalLosses := (pnls.filter (fun p => ¬ 0 < p)).sum
    { m with
      totalReturn := totalReturn
      maxDrawdown := maxDrawdown
      avgHoldingPeriod := avgHoldingPeriod
      avgWin := if 0 < m.winCount then totalWins / (m.winCount : ℚ) else m.avgWin
      avgLoss := if 0 < m.lossCount then totalLosses / (m.lossCount : ℚ) else m.avgLoss }

/-- The per-day transition of §4.2, written from the specification text
(not from the code): from flat, `z > entry` enters short-spread (`-1`) and
`z < -entry` enters long-spread (`1`); from long-spread, `z ≥ -exit` goes
flat; from short-spread, `z ≤ exit` goes flat.  The emitted signal of a
defined day equals the new state. -/
def specNext (entryThreshold exitThreshold : ℚ) (pos : ℤ) (z : ℚ) : ℤ :=
  if pos = 0 then
    if entryThreshold < z then -1 else if z < -entryThreshold then 1 else 0
  else if pos = 1 then
    if -exitThreshold ≤ z then 0 else 1
  else
    if z ≤ exitThreshold then 0 else -1

/-! ## Concrete data used for witnesses and failing inputs

An 8-day dataset of two symbols whose spread (with the default beta of 1)
is `[0, 1, 2, 3, 4, 5, 4, 5]`.  With a lookback window of 3, every window
that decides a trade is either an exact arithmetic progression (variance a
perfect square, so the sqrt stand-in is exact and the z-score is exactly
`±1`) or lands strictly inside the thresholds, so the generated signal
sequence matches the C++ program on the same input. -/

def pricesA_c1 : List ℚ := [100, 101, 102, 103, 104, 105, 104, 105]

def pricesB_c1 : List ℚ := [100, 100, 100, 100, 100, 100, 100, 100]

def pair_c1 : AssetPair := AssetPair.make "A" "B" pricesA_c1 pricesB_c1

def md_c1 : MarketData := ⟨8, [("A", pricesA_c1), ("B", pricesB_c1)]⟩

/-! ## Theorems -/

theorem natSqrt_pos (n : ℕ) (h : 0 < n) : 0 < natSqrt n := by
  unfold natSqrt
  rw [if_neg (Nat.pos_iff_ne_zero.mp h)]
  exact lt_of_lt_of_le Nat.one_pos (le_max_left _ _)

theorem ratSqrt_pos {q : ℚ} (h : 0 < q) : 0 < ratSqrt q := by
  unfold ratSqrt
  apply div_pos
  · have hnum : 0 < q.num := Rat.num_pos.mpr h
    have hpos : 0 < q.num.toNat := by omega
    exact_mod_cast Nat.cast_pos.mpr (natSqrt_pos _ hpos)
  · exact_mod_cast Nat.cast_pos.mpr (natSqrt_pos _ q.pos)

theorem natSqrt_one : natSqrt 1 = 1 := by decide

theorem natSqrt_three : natSqrt 3 = 1 := by decide

theorem pair_c1_pricesA : pair_c1.pricesA = [100, 101, 102, 103, 104, 105, 104, 105] := by
  norm_num [pair_c1, AssetPair.make, pricesA_c1, pricesB_c1]

theorem pair_c1_pricesB : pair_c1.pricesB = [100, 100, 100, 100, 100, 100, 100, 100] := by
  norm_num [pair_c1, AssetPair.make, pricesA_c1, pricesB_c1]

theorem pair_c1_symA : pair_c1.symbolA = "A" := rfl

theorem pair_c1_symB : pair_c1.symbolB = "B" := rfl

theorem getPS_A : getPriceSeries md_c1 "A" = some [100, 101, 102, 103, 104, 105, 104, 105] := by
  decide

theorem getPS_B : getPriceSeries md_c1 "B" = some [100, 100, 100, 100, 100, 100, 100, 100] := by
  decide

set_option maxHeartbeats 2000000 in
/-- The z-scores of the witness pair with a lookback window of 3: two
warm-up NaN days, then `1` on every ascending arithmetic window, `-1/3`
at day 6 and `1/3` at day 7. -/
theorem zs_c1 : getZScores pair_c1 3 =
    [none, none, some 1, some 1, some 1, some 1, some (-(1/3)), some (1/3)] := by
  norm_num [getZScores, pair_c1, AssetPair.make, calculateSpreads, pricesA_c1, pricesB_c1,
    Utilities.rollingZScore, Utilities.rollingMean, Utilities.rollingStdDev,
    Utilities.standardDeviation, Utilities.mean, Utilities.trailingWindow,
    ratSqrt, natSqrt_one, natSqrt_three, List.range_succ]

/-- The signals of the witness pair with entry threshold 3/4 and exit
threshold 0: enter short-spread on day 2, hold through day 5, exit on
day 6, stay flat. -/
theorem sig_c1 : generateSignals pair_c1 (3/4) 0 3 = [0, 0, -1, -1, -1, -1, 0, 0] := by
  rw [generateSignals, zs_c1]
  norm_num [signalLoop, signalStep]

theorem signalStep_reachable (e x : ℚ) (pos : ℤ) (z : Option ℚ)
    (h : pos = 0 ∨ pos = 1 ∨ pos = -1) :
    (signalStep e x pos z).2 = 0 ∨ (signalStep e x pos z).2 = 1 ∨
      (signalStep e x pos z).2 = -1 := by
  cases z with
  | none => simpa [signalStep] using h
  | some z =>
    rcases h with h | h | h <;> subst h <;> simp [signalStep] <;> split_ifs <;> simp

theorem posAfter_reachable (e x : ℚ) (zs : List (Option ℚ)) (pos : ℤ)
    (h : pos = 0 ∨ pos = 1 ∨ pos = -1) :
    posAfter e x pos zs = 0 ∨ posAfter e x pos zs = 1 ∨ posAfter e x pos zs = -1 := by
  induction zs generalizing pos with
  | nil => simpa [posAfter] using h
  | cons z rest ih =>
    have := signalStep_reachable e x pos z h
    simpa [posAfter, List.foldl_cons] using ih _ this

theorem posAfter_cons (e x : ℚ) (pos : ℤ) (z : Option ℚ) (zs : List (Option ℚ)) :
    posAfter e x pos (z :: zs) = posAfter e x (signalStep e x pos z).2 zs := rfl

/-- On a defined z-score, the code's step agrees with the specification's
transition table, both in the emitted signal and in the new state. -/
theorem signalStep_defined (e x : ℚ) (pos : ℤ) (z : ℚ)
    (h : pos = 0 ∨ pos = 1 ∨ pos = -1) :
    signalStep e x pos (some z) = (specNext e x pos z, specNext e x pos z) := by
  rcases h with h | h | h <;> subst h <;>
    simp only [signalStep, specNext] <;> split_ifs <;> rfl

theorem signalLoop_length (e x : ℚ) (pos : ℤ) (zs : List (Option ℚ)) :
    (signalLoop e x pos zs).length = zs.length := by
  induction zs generalizing pos with
  | nil => rfl
  | cons z rest ih => simp [signalLoop, ih]

/-- Index formula for the signal loop: the day-`i` output is the emission
of the step applied to the state accumulated over the first `i` z-scores. -/
theorem signalLoop_getD (e x : ℚ) (zs : List (Option ℚ)) (pos : ℤ) (i : ℕ)
    (hi : i < zs.length) :
    (signalLoop e x pos zs).getD i 0 =
      (signalStep e x (posAfter e x pos (zs.take i)) (zs.getD i none)).1 := by
  induction zs generalizing pos i with
  | nil => simp at hi
  | cons z rest ih =>
    cases i with
    | zero => simp [signalLoop, posAfter]
    | succ j =>
      have hj : j < rest.length := by simpa using hi
      simp only [signalLoop, List.getD_cons_succ, List.take_succ_cons, posAfter_cons]
      exact ih _ j hj

/-- State formula: the state after `i + 1` z-scores is the step applied to
the state after `i` of them. -/
theorem posAfter_take_succ (e x : ℚ) (zs : List (Option ℚ)) (pos : ℤ) (i : ℕ)
    (hi : i < zs.length) :
    posAfter e x pos (zs.take (i + 1)) =
      (signalStep e x (posAfter e x pos (zs.take i)) (zs.getD i none)).2 := by
  induction zs generalizing pos i with
  | nil => simp at hi
  | cons z rest ih =>
    cases i with
    | zero => simp [posAfter_cons, posAfter]
    | succ j =>
      have hj : j < rest.length := by simpa using hi
      simp only [List.take_succ_cons, posAfter_cons, List.getD_cons_succ]
      exact ih _ j hj

/-- A nonzero emitted signal always equals the new state. -/
theorem signalStep_emit_eq_state (e x : ℚ) (pos : ℤ) (z : Option ℚ)
    (h : (signalStep e x pos z).1 ≠ 0) :
    (signalStep e x pos z).2 = (signalStep e x pos z).1 := by
  cases z with
  | none => simp [signalStep] at h
  | some z =>
    simp only [signalStep] at h ⊢
    split_ifs at h ⊢ <;> first | rfl | simp_all

/-- From a non-flat state the machine can only emit flat or that same
state: it never emits the opposite direction in one step. -/
theorem signalStep_emit_of_nonzero (e x : ℚ) (pos : ℤ) (z : Option ℚ)
    (h : pos ≠ 0) :
    (signalStep e x pos z).1 = 0 ∨ (signalStep e x pos z).1 = pos := by
  cases z with
  | none => simp [signalStep]
  | some z =>
    simp only [signalStep, if_neg h]
    split_ifs <;> simp_all

/-- C2: `generateSignals` implements exactly the three-state machine of
§4.2 on every day with a defined z-score: the emitted signal and the new
held direction both equal the specification's transition table `specNext`
applied to the held direction accumulated over the earlier days
(short-spread being `-1`, long-spread `1`, flat `0`). -/
theorem claim_C2_signal_machine (p : AssetPair) (e x : ℚ) (lb i : ℕ) (z : ℚ)
    (hz : (getZScores p lb).getD i none = some z) :
    (generateSignals p e x lb).getD i 0 =
      specNext e x (posAfter e x 0 ((getZScores p lb).take i)) z ∧
    posAfter e x 0 ((getZScores p lb).take (i + 1)) =
      specNext e x (posAfter e x 0 ((getZScores p lb).take i)) z := by
  have hi : i < (getZScores p lb).length := by
    by_contra hge
    rw [List.getD_eq_default _ _ (Nat.le_of_not_lt hge)] at hz
    exact Option.noConfusion hz
  have hreach := posAfter_reachable e x ((getZScores p lb).take i) 0 (Or.inl rfl)
  have hstep := signalStep_defined e x
    (posAfter e x 0 ((getZScores p lb).take i)) z hreach
  constructor
  · rw [generateSignals, signalLoop_getD e x _ 0 i hi, hz, hstep]
  · rw [posAfter_take_succ e x _ 0 i hi, hz, hstep]

/-- Witness for C2 at a concrete pair: day 2 of the witness pair has
z-score exactly 1, and with entry threshold 3/4 the machine enters
short-spread from flat. -/
theorem claim_C2_signal_machine_witness :
    (getZScores pair_c1 3).getD 2 none = some 1 ∧
    ((generateSignals pair_c1 (3/4) 0 3).getD 2 0 =
        specNext (3/4) 0 (posAfter (3/4) 0 0 ((getZScores pair_c1 3).take 2)) 1 ∧
      posAfter (3/4) 0 0 ((getZScores pair_c1 3).take 3) =
        specNext (3/4) 0 (posAfter (3/4) 0 0 ((getZScores pair_c1 3).take 2)) 1) :=
  ⟨zs_c1 ▸ rfl, claim_C2_signal_machine pair_c1 (3/4) 0 3 2 1 (zs_c1 ▸ rfl)⟩

/-- C3: a NaN z-score day emits the flat signal and leaves the held
direction of the machine unchanged, so the next defined day is evaluated
against the same prior state; a NaN never triggers an entry or an exit. -/
theorem claim_C3_nan_flat (p : AssetPair) (e x : ℚ) (lb i : ℕ)
    (hi : i < (getZScores p lb).length)
    (hz : (getZScores p lb).getD i none = none) :
    (generateSignals p e x lb).getD i 0 = 0 ∧
    posAfter e x 0 ((getZScores p lb).take (i + 1)) =
      posAfter e x 0 ((getZScores p lb).take i) := by
  constructor
  · rw [generateSignals, signalLoop_getD e x _ 0 i hi, hz]
    rfl
  · rw [posAfter_take_succ e x _ 0 i hi, hz]
    rfl

/-- Witness for C3 at a concrete pair: day 1 is in the warm-up region, its
z-score is NaN, the emitted signal is flat and the state is untouched. -/
theorem claim_C3_nan_flat_witness :
    1 < (getZScores pair_c1 3).length ∧
    (getZScores pair_c1 3).getD 1 none = none ∧
    ((generateSignals pair_c1 (3/4) 0 3).getD 1 0 = 0 ∧
      posAfter (3/4) 0 0 ((getZScores pair_c1 3).take 2) =
        posAfter (3/4) 0 0 ((getZScores pair_c1 3).take 1)) :=
  ⟨by rw [zs_c1]; decide, zs_c1 ▸ rfl,
    claim_C3_nan_flat pair_c1 (3/4) 0 3 1 (by rw [zs_c1]; decide) (zs_c1 ▸ rfl)⟩

/-- C4: the signal sequence never holds two different non-flat directions
on consecutive days; a direction change always passes through a flat day.
Out-of-range accesses read the `getD` default 0, so no range hypothesis is
needed. -/
theorem claim_C4_no_direct_flip (p : AssetPair) (e x : ℚ) (lb i : ℕ)
    (h1 : (generateSignals p e x lb).getD i 0 ≠ 0)
    (h2 : (generateSignals p e x lb).getD (i + 1) 0 ≠ 0) :
    (generateSignals p e x lb).getD i 0 = (generateSignals p e x lb).getD (i + 1) 0 := by
  set zs := getZScores p lb with hzs
  have hlen : (generateSignals p e x lb).length = zs.length := signalLoop_length _ _ _ _
  have hi1 : i + 1 < zs.length := by
    by_contra hge
    rw [generateSignals, ← hzs] at h2
    rw [List.getD_eq_default] at h2
    · exact h2 rfl
    · rw [signalLoop_length]
      omega
  have hi : i < zs.length := by omega
  rw [generateSignals, ← hzs] at h1 h2 ⊢
  rw [signalLoop_getD e x zs 0 i hi] at h1 ⊢
  rw [signalLoop_getD e x zs 0 (i + 1) hi1] at h2 ⊢
  have hstate : posAfter e x 0 (zs.take (i + 1)) =
      (signalStep e x (posAfter e x 0 (zs.take i)) (zs.getD i none)).1 := by
    rw [posAfter_take_succ e x zs 0 i hi]
    exact signalStep_emit_eq_state e x _ _ h1
  rcases signalStep_emit_of_nonzero e x (posAfter e x 0 (zs.take (i + 1)))
      (zs.getD (i + 1) none) (by rw [hstate]; exact h1) with hc | hc
  · exact absurd hc h2
  · rw [hc, hstate]

/-- Witness for C4: on the witness pair the signals on days 2 and 3 are
both short-spread, and the theorem yields their equality. -/
theorem claim_C4_no_direct_flip_witness :
    (generateSignals pair_c1 (3/4) 0 3).getD 2 0 ≠ 0 ∧
    (generateSignals pair_c1 (3/4) 0 3).getD 3 0 ≠ 0 ∧
    (generateSignals pair_c1 (3/4) 0 3).getD 2 0 =
      (generateSignals pair_c1 (3/4) 0 3).getD 3 0 :=
  ⟨by rw [sig_c1]; decide, by rw [sig_c1]; decide,
    claim_C4_no_direct_flip pair_c1 (3/4) 0 3 2
      (by rw [sig_c1]; decide) (by rw [sig_c1]; decide)⟩

theorem getD_map_range {α : Type} (f : ℕ → α) (n i : ℕ) (d : α) (hi : i < n) :
    ((List.range n).map f).getD i d = f i := by
  simp [List.getD_eq_getElem?_getD, List.getElem?_map, List.getElem?_range, hi]

theorem getD_replicate_none {α : Type} (n i : ℕ) :
    (List.replicate n (none : Option α)).getD i none = none := by
  rcases lt_or_ge i n with h | h
  · simp [List.getD_eq_getElem?_getD, List.getElem?_replicate, h]
  · exact List.getD_eq_default _ _ (by simpa using h)

theorem rollingStdDev_getD_of_le (data : List ℚ) (window i : ℕ)
    (h : ¬(data.length < window ∨ window = 0)) (hwi : window - 1 ≤ i)
    (hi : i < data.length) :
    (Utilities.rollingStdDev data window).getD i none =
      Utilities.standardDeviation (Utilities.trailingWindow data window i) := by
  rw [Utilities.rollingStdDev, if_neg h, getD_map_range _ _ _ _ hi, if_pos hwi]

theorem rollingMean_getD_of_le (data : List ℚ) (window i : ℕ)
    (h : ¬(data.length < window ∨ window = 0)) (hwi : window - 1 ≤ i)
    (hi : i < data.length) :
    (Utilities.rollingMean data window).getD i none =
      some ((Utilities.trailingWindow data window i).sum / (window : ℚ)) := by
  rw [Utilities.rollingMean, if_neg h, getD_map_range _ _ _ _ hi, if_pos hwi]

/-- C5: an entry of `rollingZScore` is NaN exactly when the input is
shorter than the window, or the index is in the warm-up region, or the
corresponding rolling standard deviation is not strictly positive (with a
NaN standard deviation counting as not strictly positive); and every
defined entry is the quotient of the centred value by a strictly positive
standard deviation, so (in this exact-arithmetic model of finite doubles)
the division is never performed with a zero, negative or NaN denominator
and no entry is ever an infinity. -/
theorem claim_C5_zscore_nan (data : List ℚ) (window i : ℕ) (hi : i < data.length) :
    ((Utilities.rollingZScore data window).getD i none = none ↔
      data.length < window ∨ i + 1 < window ∨
        ∀ s, (Utilities.rollingStdDev data window).getD i none = some s → s ≤ 0) ∧
    ∀ z, (Utilities.rollingZScore data window).getD i none = some z →
      ∃ s m, (Utilities.rollingStdDev data window).getD i none = some s ∧ 0 < s ∧
        (Utilities.rollingMean data window).getD i none = some m ∧
        z = (data.getD i 0 - m) / s := by
  by_cases hlen : data.length < window
  · rw [Utilities.rollingZScore, if_pos hlen, getD_replicate_none]
    exact ⟨by simp [hlen], fun z hz => Option.noConfusion hz⟩
  · by_cases hw0 : window = 0
    · subst hw0
      rw [Utilities.rollingZScore, if_neg hlen]
      have hguard : ¬((0 : ℕ) - 1 ≤ i ∧ (0 : ℕ) ≠ 0) := by omega
      rw [getD_map_range _ _ _ _ hi, if_neg hguard]
      have hstd : (Utilities.rollingStdDev data 0).getD i none = none := by
        rw [Utilities.rollingStdDev, if_pos (by omega), getD_replicate_none]
      refine ⟨⟨fun _ => Or.inr (Or.inr fun s hs => ?_), fun _ => rfl⟩,
        fun z hz => Option.noConfusion hz⟩
      rw [hstd] at hs
      exact Option.noConfusion hs
    · by_cases hwi : window - 1 ≤ i
      · have hstd := rollingStdDev_getD_of_le data window i (by tauto) hwi hi
        have hmean := rollingMean_getD_of_le data window i (by tauto) hwi hi
        rw [Utilities.rollingZScore, if_neg hlen, getD_map_range _ _ _ _ hi,
          if_pos ⟨hwi, hw0⟩]
        rcases hsd : Utilities.standardDeviation (Utilities.trailingWindow data window i)
          with _ | s
        · rw [hstd, hsd]
          exact ⟨⟨fun _ => Or.inr (Or.inr fun s hs => Option.noConfusion hs),
            fun _ => rfl⟩, fun z hz => Option.noConfusion hz⟩
        · rw [hstd, hsd, Option.some_bind]
          by_cases hs : 0 < s
          · rw [if_pos hs]
            constructor
            · simp only [reduceCtorEq, false_iff]
              rintro (hc | hc | hc)
              · exact hlen hc
              · omega
              · exact absurd hs (not_lt.mpr (hc s rfl))
            · intro z hz
              refine ⟨s, (Utilities.trailingWindow data window i).sum / (window : ℚ),
                rfl, hs, hmean, ?_⟩
              rw [hmean, Option.getD_some] at hz
              exact (Option.some.inj hz).symm
          · rw [if_neg hs]
            refine ⟨?_, fun z hz => Option.noConfusion hz⟩
            simp only [true_iff]
            refine Or.inr (Or.inr fun s' hs' => ?_)
            obtain rfl : s = s' := Option.some.inj hs'
            exact le_of_not_lt hs
      · rw [Utilities.rollingZScore, if_neg hlen, getD_map_range _ _ _ _ hi,
          if_neg (by tauto)]
        refine ⟨?_, fun z hz => Option.noConfusion hz⟩
        simp only [true_iff]
        exact Or.inr (Or.inl (by omega))

/-- Witness for C5 at a concrete input: the series `[0, 1, 2]` with window
3 at index 2 (inside the window, strictly positive standard deviation). -/
theorem claim_C5_zscore_nan_witness :
    2 < ([0, 1, 2] : List ℚ).length ∧
    (((Utilities.rollingZScore [0, 1, 2] 3).getD 2 none = none ↔
      ([0, 1, 2] : List ℚ).length < 3 ∨ 2 + 1 < 3 ∨
        ∀ s, (Utilities.rollingStdDev [0, 1, 2] 3).getD 2 none = some s → s ≤ 0) ∧
    ∀ z, (Utilities.rollingZScore [0, 1, 2] 3).getD 2 none = some z →
      ∃ s m, (Utilities.rollingStdDev [0, 1, 2] 3).getD 2 none = some s ∧ 0 < s ∧
        (Utilities.rollingMean [0, 1, 2] 3).getD 2 none = some m ∧
        z = (([0, 1, 2] : List ℚ).getD 2 0 - m) / s) :=
  ⟨by decide, claim_C5_zscore_nan [0, 1, 2] 3 2 (by decide)⟩

/-- C6: on fewer than 20 observations, for every `maxLags`, `adfTest`
returns the fixed result with test statistic 0, p-value 1 and a
non-stationary verdict, performing no regression. -/
theorem claim_C6_adf_short (timeSeries : List ℚ) (maxLags : ℤ)
    (h : timeSeries.length < 20) :
    Utilities.adfTest timeSeries maxLags = ⟨0, 1, false⟩ := by
  rw [Utilities.adfTest, if_pos h]

/-- Witness for C6: the empty series. -/
theorem claim_C6_adf_short_witness :
    ([] : List ℚ).length < 20 ∧ Utilities.adfTest [] 1 = ⟨0, 1, false⟩ :=
  ⟨by decide, claim_C6_adf_short [] 1 (by decide)⟩

/-- C10: on at least 20 observations, for every `maxLags`, the p-value of
`adfTest` is the hard-coded 0.05, independent of the data. -/
theorem claim_C10_adf_pvalue (timeSeries : List ℚ) (maxLags : ℤ)
    (h : 20 ≤ timeSeries.length) :
    (Utilities.adfTest timeSeries maxLags).pValue = 1 / 20 := by
  rw [Utilities.adfTest, if_neg (by omega)]

/-- Witness for C10: a constant series of twenty ones. -/
theorem claim_C10_adf_pvalue_witness :
    20 ≤ (List.replicate 20 (1 : ℚ)).length ∧
    (Utilities.adfTest (List.replicate 20 (1 : ℚ)) 1).pValue = 1 / 20 :=
  ⟨by decide, claim_C10_adf_pvalue (List.replicate 20 1) 1 (by decide)⟩

/-- C8: `testCointegration` is idempotent on an unchanged pair: a second
call recomputes the same beta, the same spread sequence and the same
cointegration verdict, and indeed reproduces the whole pair state, because
the price series it reads are untouched by the first call. -/
theorem claim_C8_idempotent (p : AssetPair) (sl sl' : ℚ) :
    (testCointegration (testCointegration p sl).1 sl').1.beta =
        (testCointegration p sl).1.beta ∧
    (testCointegration (testCointegration p sl).1 sl').1.spreads =
        (testCointegration p sl).1.spreads ∧
    (testCointegration (testCointegration p sl).1 sl').2 =
        (testCointegration p sl).2 ∧
    (testCointegration (testCointegration p sl).1 sl').1 =
        (testCointegration p sl).1 :=
  ⟨rfl, rfl, rfl, rfl⟩

theorem calculateMetrics_maxDrawdown (values : List ℚ) (c : ℚ)
    (th : List (ℤ × ℚ)) (m : PerformanceMetrics) (h : values ≠ []) :
    (calculateMetrics values c th m).maxDrawdown = maxDrawdownOf values := by
  cases values with
  | nil => exact absurd rfl h
  | cons v rest => rw [calculateMetrics]; rfl

theorem le_maxDrawdownLoop (l : List ℚ) (mv dd : ℚ) :
    dd ≤ maxDrawdownLoop mv dd l := by
  induction l generalizing mv dd with
  | nil => exact le_refl dd
  | cons v rest ih =>
    rw [maxDrawdownLoop]
    split_ifs with h
    · exact ih v dd
    · refine le_trans ?_ (ih mv _)
      split_ifs with h2
      · exact le_of_lt h2
      · exact le_refl dd

theorem maxDrawdownLoop_le_one (l : List ℚ) (mv dd : ℚ) (hmv : 0 ≤ mv)
    (hdd : dd ≤ 1) (hl : ∀ v ∈ l, 0 ≤ v) : maxDrawdownLoop mv dd l ≤ 1 := by
  induction l generalizing mv dd with
  | nil => exact hdd
  | cons v rest ih =>
    have hv : 0 ≤ v := hl v (List.mem_cons_self v rest)
    have hrest : ∀ w ∈ rest, 0 ≤ w := fun w hw => hl w (List.mem_cons_of_mem v hw)
    rw [maxDrawdownLoop]
    split_ifs with h
    · exact ih v dd hv hdd hrest
    · refine ih mv _ hmv ?_ hrest
      split_ifs with h2
      · rcases eq_or_lt_of_le hmv with heq | hpos
        · rw [← heq, div_zero]
          exact zero_le_one
        · rw [div_le_one hpos]
          linarith
      · exact hdd

/-- Counterexample to C7 as stated: on the mark-to-market series
`[100, -50]` (the portfolio value goes negative) the maximum drawdown
computed by `calculateMetrics` is `3/2`, outside `[0, 1]`. -/
theorem claim_C7_drawdown_counterexample :
    (calculateMetrics [100, -50] 100 [] PerformanceMetrics.initial).maxDrawdown = 3 / 2 ∧
    ¬((calculateMetrics [100, -50] 100 [] PerformanceMetrics.initial).maxDrawdown ≤ 1) := by
  constructor
  · rw [calculateMetrics_maxDrawdown _ _ _ _ (by decide)]
    norm_num [maxDrawdownOf, maxDrawdownLoop]
  · rw [calculateMetrics_maxDrawdown _ _ _ _ (by decide)]
    norm_num [maxDrawdownOf, maxDrawdownLoop]

/-- C7 amended: on every nonempty mark-to-market series the maximum
drawdown computed by `calculateMetrics` is nonnegative, and it lies in
`[0, 1]` provided every portfolio value of the series is nonnegative (the
original claim fails only when the series goes negative, where the
peak-to-trough ratio exceeds 1). -/
theorem claim_C7_drawdown_range (values : List ℚ) (c : ℚ)
    (th : List (ℤ × ℚ)) (m : PerformanceMetrics) (h : values ≠ []) :
    0 ≤ (calculateMetrics values c th m).maxDrawdown ∧
    ((∀ v ∈ values, 0 ≤ v) → (calculateMetrics values c th m).maxDrawdown ≤ 1) := by
  rw [calculateMetrics_maxDrawdown _ _ _ _ h]
  cases values with
  | nil => exact absurd rfl h
  | cons v rest =>
    constructor
    · exact le_maxDrawdownLoop _ _ _
    · intro hnn
      exact maxDrawdownLoop_le_one _ _ _ (hnn v (List.mem_cons_self v rest)) zero_le_one hnn

/-- Witness for the amended C7: the nonnegative series `[100, 50]`. -/
theorem claim_C7_drawdown_range_witness :
    ([100, 50] : List ℚ) ≠ [] ∧
    (0 ≤ (calculateMetrics [100, 50] 100 [] PerformanceMetrics.initial).maxDrawdown ∧
      ((∀ v ∈ ([100, 50] : List ℚ), 0 ≤ v) →
        (calculateMetrics [100, 50] 100 [] PerformanceMetrics.initial).maxDrawdown ≤ 1)) :=
  ⟨by decide, claim_C7_drawdown_range [100, 50] 100 [] PerformanceMetrics.initial (by decide)⟩

theorem closePosition_values (pair : AssetPair) (d : ℕ) (s : PairLoopState) :
    (closePosition pair d s).bt.portfolioValues = s.bt.portfolioValues := rfl

theorem openPosition_values (md : MarketData) (c : ℚ) (pair : AssetPair)
    (signal : ℤ) (d : ℕ) (s : PairLoopState) :
    (openPosition md c pair signal d s).bt.portfolioValues = s.bt.portfolioValues := rfl

theorem day_le_execDay (delayed : Bool) (numDays day : ℕ) :
    day ≤ execDay delayed numDays day := by
  rw [execDay]; split_ifs <;> omega

theorem dayStep_values_length (md : MarketData) (c : ℚ) (pair : AssetPair)
    (signals : List ℤ) (delayed : Bool) (numDays : ℕ) (s : PairLoopState) (day : ℕ) :
    (dayStep md c pair signals delayed numDays s day).bt.portfolioValues.length =
      s.bt.portfolioValues.length := by
  simp only [dayStep, List.length_set]
  split_ifs <;> simp [closePosition_values, openPosition_values]

theorem dayStep_values_getD (md : MarketData) (c : ℚ) (pair : AssetPair)
    (signals : List ℤ) (delayed : Bool) (numDays : ℕ) (s : PairLoopState) (day : ℕ)
    (i : ℕ) (d : ℚ) (hne : i ≠ execDay delayed numDays day) :
    (dayStep md c pair signals delayed numDays s day).bt.portfolioValues.getD i d =
      s.bt.portfolioValues.getD i d := by
  simp only [dayStep]
  split_ifs <;>
    simp [closePosition_values, openPosition_values,
      List.getD_eq_getElem?_getD, List.getElem?_set_ne (Ne.symm hne)]

theorem foldl_dayStep_values_length (md : MarketData) (c : ℚ) (pair : AssetPair)
    (signals : List ℤ) (delayed : Bool) (numDays : ℕ) (days : List ℕ)
    (s : PairLoopState) :
    ((days.foldl (dayStep md c pair signals delayed numDays) s)).bt.portfolioValues.length =
      s.bt.portfolioValues.length := by
  induction days generalizing s with
  | nil => rfl
  | cons day rest ih =>
    rw [List.foldl_cons, ih, dayStep_values_length]

theorem foldl_dayStep_values_getD (md : MarketData) (c : ℚ) (pair : AssetPair)
    (signals : List ℤ) (delayed : Bool) (numDays : ℕ) (days : List ℕ)
    (s : PairLoopState) (i : ℕ) (d : ℚ)
    (h : ∀ day ∈ days, i ≠ execDay delayed numDays day) :
    ((days.foldl (dayStep md c pair signals delayed numDays) s)).bt.portfolioValues.getD i d =
      s.bt.portfolioValues.getD i d := by
  induction days generalizing s with
  | nil => rfl
  | cons day rest ih =>
    rw [List.foldl_cons, ih _ (fun d hd => h d (List.mem_cons_of_mem day hd)),
      dayStep_values_getD]
    exact h day (List.mem_cons_self day rest)

theorem runPairLoop_values_length (md : MarketData) (c : ℚ) (pair : AssetPair)
    (signals : List ℤ) (delayed : Bool) (numDays lb : ℕ) (bt : BtState) :
    (runPairLoop md c pair signals delayed numDays lb bt).portfolioValues.length =
      bt.portfolioValues.length :=
  foldl_dayStep_values_length md c pair signals delayed numDays _ _

theorem runPairLoop_values_getD (md : MarketData) (c : ℚ) (pair : AssetPair)
    (signals : List ℤ) (delayed : Bool) (numDays lb : ℕ) (bt : BtState)
    (i : ℕ) (d : ℚ)
    (h : ∀ day ∈ List.range' lb (numDays - lb), i ≠ execDay delayed numDays day) :
    (runPairLoop md c pair signals delayed numDays lb bt).portfolioValues.getD i d =
      bt.portfolioValues.getD i d :=
  foldl_dayStep_values_getD md c pair signals delayed numDays _ _ i d h

theorem foldl_pairs_values_length (md : MarketData) (pairs : List AssetPair)
    (c e x : ℚ) (lb : ℕ) (delayed : Bool) (bt : BtState) :
    ((pairs.foldl (fun bt pair =>
        runPairLoop md c pair (generateSignals pair e x lb)
          delayed md.numDays lb bt) bt)).portfolioValues.length =
      bt.portfolioValues.length := by
  induction pairs generalizing bt with
  | nil => rfl
  | cons p rest ih =>
    rw [List.foldl_cons, ih, runPairLoop_values_length]

theorem foldl_pairs_values_getD (md : MarketData) (pairs : List AssetPair)
    (c e x : ℚ) (lb : ℕ) (delayed : Bool) (bt : BtState) (i : ℕ) (d : ℚ)
    (h : ∀ day ∈ List.range' lb (md.numDays - lb), i ≠ execDay delayed md.numDays day) :
    ((pairs.foldl (fun bt pair =>
        runPairLoop md c pair (generateSignals pair e x lb)
          delayed md.numDays lb bt) bt)).portfolioValues.getD i d =
      bt.portfolioValues.getD i d := by
  induction pairs generalizing bt with
  | nil => rfl
  | cons p rest ih =>
    rw [List.foldl_cons, ih, runPairLoop_values_getD md c p _ delayed md.numDays lb bt i d h]

/-- C9: after `runBacktest` on `n > lookbackWindow` days the value series
has length `n`, every index below the lookback window still holds the 0.0
the array was initialised with (not the initial capital), and under
delayed execution with `lookbackWindow + 1 < n` the index
`lookbackWindow` itself is also still 0.0, because only execution-day
indices are ever written. -/
theorem claim_C9_zero_prefix (md : MarketData) (pairs : List AssetPair)
    (c e x : ℚ) (lb : ℕ) (delayed : Bool) (h : lb < md.numDays) :
    (runBacktest md pairs c e x lb delayed).portfolioValues.length = md.numDays ∧
    (∀ i, i < lb →
      (runBacktest md pairs c e x lb delayed).portfolioValues.getD i 1 = 0) ∧
    (delayed = true → lb + 1 < md.numDays →
      (runBacktest md pairs c e x lb delayed).portfolioValues.getD lb 1 = 0) := by
  have h0 : ¬ md.numDays = 0 := by omega
  rw [runBacktest, if_neg h0]
  have hrep : ∀ j, j < md.numDays →
      (List.replicate md.numDays (0 : ℚ)).getD j 1 = 0 := by
    intro j hj
    simp [List.getD_eq_getElem?_getD, List.getElem?_replicate, hj]
  refine ⟨?_, ?_, ?_⟩
  · rw [foldl_pairs_values_length]
    exact List.length_replicate _ _
  · intro i hi
    rw [foldl_pairs_values_getD]
    · exact hrep i (by omega)
    · intro day hday
      have hmem := List.mem_range'_1.mp hday
      have := day_le_execDay delayed md.numDays day
      omega
  · intro hdel hlb1
    rw [foldl_pairs_values_getD]
    · exact hrep lb (by omega)
    · intro day hday
      have hmem := List.mem_range'_1.mp hday
      rcases eq_or_lt_of_le hmem.1 with heq | hlt
      · subst heq
        rw [execDay, if_pos ⟨hdel, by omega⟩]
        omega
      · have := day_le_execDay delayed md.numDays day
        omega

/-- Witness for C9: a 5-day dataset, lookback 2, delayed execution and no
pairs. -/
theorem claim_C9_zero_prefix_witness :
    2 < (⟨5, []⟩ : MarketData).numDays ∧
    ((runBacktest ⟨5, []⟩ [] 100 (3/2) 0 2 true).portfolioValues.length =
        (⟨5, []⟩ : MarketData).numDays ∧
      (∀ i, i < 2 →
        (runBacktest ⟨5, []⟩ [] 100 (3/2) 0 2 true).portfolioValues.getD i 1 = 0) ∧
      (true = true → 2 + 1 < (⟨5, []⟩ : MarketData).numDays →
        (runBacktest ⟨5, []⟩ [] 100 (3/2) 0 2 true).portfolioValues.getD 2 1 = 0)) :=
  ⟨by decide, claim_C9_zero_prefix ⟨5, []⟩ [] 100 (3/2) 0 2 true (by decide)⟩

theorem range'_c1 : List.range' 3 5 = [3, 4, 5, 6, 7] := by decide

theorem md_c1_numDays : md_c1.numDays = 8 := rfl

set_option maxHeartbeats 4000000 in
/-- The complete backtest of the witness pair (initial capital 2060, entry
threshold 3/4, exit threshold 0, lookback 3, same-day execution), computed
step by step: a short-spread position of quantities `(-1, 103/100)` is
opened on day 3 and closed on day 6 at a realized loss of 1, yet the
closed position is still in the `positions_` vector at the end, because
`runBacktest` only resets its pair-local copy when closing. -/
theorem run_c1 :
    runBacktest md_c1 [pair_c1] 2060 (3/4) 0 3 false =
      ⟨2059,
       [⟨"A", "B", -1, 103/100, 103, 100, 3, -1⟩],
       [0, 0, 0, 2060, 2059, 2058, 2058, 2057],
       [(6, -1)], 0, 1, 3⟩ := by
  rw [runBacktest]
  norm_num [sig_c1, runPairLoop, range'_c1, dayStep, execDay, closePosition, openPosition,
    calculatePortfolioValue, getPS_A, getPS_B, md_c1_numDays,
    pair_c1_pricesA, pair_c1_pricesB, pair_c1_symA, pair_c1_symB, Position.initial,
    List.replicate, List.set, List.getElem_cons_zero, List.getElem_cons_succ,
    (show Int.toNat 3 = 3 from by decide), (show Int.toNat 4 = 4 from by decide),
    (show Int.toNat 5 = 5 from by decide), (show Int.toNat 6 = 6 from by decide),
    (show Int.toNat 7 = 7 from by decide)]

/-- C1 fails on the code: `runBacktest` never removes a closed position
from the `positions_` vector (closing only resets the pair-local copy), so
`calculatePortfolioValue` keeps marking closed positions even though their
exit value was already realized into cash.  On the witness backtest the
single trade is opened on day 3 and closed on day 6 (its loss of 1 logged
and realized, final cash 2059), the signal is flat for the rest of the
run, so by the claim the day-7 mark-to-market value is cash alone; the
code instead still holds the closed position and returns 2057, counting
the closed legs a second time. -/
theorem claim_C1_stale_positions :
    (runBacktest md_c1 [pair_c1] 2060 (3/4) 0 3 false).tradeHistory = [(6, -1)] ∧
    (generateSignals pair_c1 (3/4) 0 3).getD 6 0 = 0 ∧
    (generateSignals pair_c1 (3/4) 0 3).getD 7 0 = 0 ∧
    (runBacktest md_c1 [pair_c1] 2060 (3/4) 0 3 false).cash = 2059 ∧
    (runBacktest md_c1 [pair_c1] 2060 (3/4) 0 3 false).positions ≠ [] ∧
    calculatePortfolioValue md_c1 2060
      (runBacktest md_c1 [pair_c1] 2060 (3/4) 0 3 false).cash
      (runBacktest md_c1 [pair_c1] 2060 (3/4) 0 3 false).positions 7 = 2057 ∧
    (2057 : ℚ) ≠ 2059 := by
  rw [run_c1, sig_c1]
  refine ⟨rfl, rfl, rfl, rfl, by decide, ?_, by norm_num⟩
  norm_num [calculatePortfolioValue, getPS_A, getPS_B, md_c1_numDays,
    (show Int.toNat 7 = 7 from by decide),
    List.getElem_cons_zero, List.getElem_cons_succ]

end StatArb
